import Mathlib

/-!
Verification of the `etl::variance` (variance.h) and `etl::standard_deviation`
(include/etl/standard_deviation.h) streaming accumulators.

Modelling choices:
* C++ `double` values are modelled by `EDouble`: an exact rational together
  with the IEEE special values `+inf`, `-inf` and `nan`.  Arithmetic on finite
  values is exact (rounding is not modelled); the special-value propagation
  rules of IEEE-754 multiplication, subtraction and division are modelled,
  which is what the division-by-zero edge case of the accumulators exercises.
* The calculation type `TCalc` holding the running sums is modelled by `ℚ`
  (exact accumulation) in the `Variance` and `StandardDeviation` models; the
  `VarianceD` model additionally covers the `TInput = TCalc = double`
  instantiation, where every accumulation step and every double operation is
  rounded to binary64 by `fl64` (round to nearest, ties to even).
* `sqrt` on doubles is modelled by `Real.sqrt`, so the cached
  standard-deviation value lives in `RDouble` (reals plus specials).
* The `uint32_t` observation counter is a `ℕ` reduced modulo `2 ^ 32` at each
  increment, exactly as unsigned overflow wraps.
-/

namespace Etl

/-- A C++ `double` value: an exact finite rational or an IEEE special value. -/
inductive EDouble where
  | finite (val : ℚ)
  | inf
  | neginf
  | nan
deriving DecidableEq

/-- IEEE-754 multiplication on `EDouble` (signed zero not modelled:
`0 * ±inf = nan`, `nan` propagates, infinities follow the sign rules). -/
def EDouble.mul : EDouble → EDouble → EDouble
  | .nan, _ => .nan
  | _, .nan => .nan
  | .finite a, .finite b => .finite (a * b)
  | .finite a, .inf => if 0 < a then .inf else if a < 0 then .neginf else .nan
  | .finite a, .neginf => if 0 < a then .neginf else if a < 0 then .inf else .nan
  | .inf, .finite b => if 0 < b then .inf else if b < 0 then .neginf else .nan
  | .neginf, .finite b => if 0 < b then .neginf else if b < 0 then .inf else .nan
  | .inf, .inf => .inf
  | .inf, .neginf => .neginf
  | .neginf, .inf => .neginf
  | .neginf, .neginf => .inf

/-- IEEE-754 subtraction on `EDouble` (`inf - inf = nan`, `nan` propagates). -/
def EDouble.sub : EDouble → EDouble → EDouble
  | .nan, _ => .nan
  | _, .nan => .nan
  | .finite a, .finite b => .finite (a - b)
  | .finite _, .inf => .neginf
  | .finite _, .neginf => .inf
  | .inf, .finite _ => .inf
  | .neginf, .finite _ => .neginf
  | .inf, .inf => .nan
  | .inf, .neginf => .inf
  | .neginf, .inf => .neginf
  | .neginf, .neginf => .nan

/-- IEEE-754 division on `EDouble`: a nonzero finite value divided by zero
gives a signed infinity, `0 / 0 = nan`, `nan` propagates, `x / ±inf = 0`. -/
def EDouble.div : EDouble → EDouble → EDouble
  | .nan, _ => .nan
  | _, .nan => .nan
  | .finite a, .finite b =>
      if b = 0 then (if 0 < a then .inf else if a < 0 then .neginf else .nan)
      else .finite (a / b)
  | .finite _, .inf => .finite 0
  | .finite _, .neginf => .finite 0
  | .inf, .finite b => if 0 ≤ b then .inf else .neginf
  | .neginf, .finite b => if 0 ≤ b then .neginf else .inf
  | .inf, .inf => .nan
  | .inf, .neginf => .nan
  | .neginf, .inf => .nan
  | .neginf, .neginf => .nan

/-- The comparison `x > 0` on doubles (`nan > 0` is false). -/
def EDouble.gtZero : EDouble → Bool
  | .finite a => decide (0 < a)
  | .inf => true
  | .neginf => false
  | .nan => false

/-- Whether a double value is finite (neither infinite nor `nan`). -/
def EDouble.isFinite : EDouble → Bool
  | .finite _ => true
  | .inf => false
  | .neginf => false
  | .nan => false

/-- A `double` whose finite part is a real number; used for the cached
standard-deviation value, which is produced by `sqrt`. -/
inductive RDouble where
  | finite (val : ℝ)
  | inf
  | neginf
  | nan

/-- An `RDouble` is non-negative: finite non-negative or `+inf`. -/
def RDouble.IsNonneg : RDouble → Prop
  | .finite x => 0 ≤ x
  | .inf => True
  | .neginf => False
  | .nan => False

/-- C `sqrt` on an `EDouble`: the non-negative real square root of a
non-negative finite value, `sqrt(+inf) = +inf`, `nan` for negative values,
`-inf` and `nan`. -/
noncomputable def EDouble.sqrtd : EDouble → RDouble
  | .finite q => if 0 ≤ q then .finite (Real.sqrt (q : ℝ)) else .nan
  | .inf => .inf
  | .neginf => .nan
  | .nan => .nan

/-- `etl::variance_type::Sample` (variance.h line 114). -/
def variance_type.Sample : Bool := false

/-- `etl::variance_type::Population` (variance.h line 115). -/
def variance_type.Population : Bool := true

/-- State of `etl::variance<Variance_Type, TInput, TCalc>`: the fields
`sum_of_squares`, `sum` and `counter` come from the base class
`private_variance::variance_traits` (the `TCalc` sums are modelled exactly by
`ℚ`, the `uint32_t` counter by a `ℕ` kept below `2 ^ 32`); `variance_value`
and `recalculate` are the members of the derived class. -/
@[ext] structure Variance where
  sum_of_squares : ℚ
  sum : ℚ
  counter : ℕ
  variance_value : EDouble
  recalculate : Bool
deriving DecidableEq

/-- `variance::Adjustment`: `(Variance_Type == variance_type::Population) ? 0 : 1`
(variance.h line 128).  `vt` is the template parameter `Variance_Type`. -/
def Variance.Adjustment (vt : Bool) : ℤ :=
  if vt = variance_type.Population then 0 else 1

/-- `variance_traits::clear()`: zeroes the sums and the counter.  Note that it
does not touch `recalculate` (variance.h lines 58-63). -/
def Variance.clear (s : Variance) : Variance :=
  { s with sum_of_squares := 0, sum := 0, counter := 0 }

/-- The default constructor `variance()`: member-initializes
`variance_value = 0.0`, `recalculate = true`, then calls `this->clear()`
(variance.h lines 135-140). -/
def Variance.init : Variance :=
  Variance.clear
    { sum_of_squares := 0, sum := 0, counter := 0,
      variance_value := .finite 0, recalculate := true }

/-- `variance::add(TInput value)` (variance.h lines 157-163): accumulates the
square and the value, increments the `uint32_t` counter (wrapping at `2 ^ 32`)
and marks the cached value dirty. -/
def Variance.add (s : Variance) (value : ℚ) : Variance :=
  { s with
    sum_of_squares := s.sum_of_squares + value * value,
    sum := s.sum + value,
    counter := (s.counter + 1) % 2 ^ 32,
    recalculate := true }

/-- `variance::add(TIterator first, TIterator last)` (variance.h lines
169-175): the while loop `while (first != last) add(*first++);` over the
range, modelled on a `List`. -/
def Variance.addRange (s : Variance) : List ℚ → Variance
  | [] => s
  | value :: rest => (s.add value).addRange rest

/-- The range constructor `variance(TIterator first, TIterator last)`
(variance.h lines 146-152): member initialization and `clear()` as in the
default constructor, then `add(first, last)`. -/
def Variance.ofRange (l : List ℚ) : Variance :=
  Variance.init.addRange l

/-- `variance::get_variance()` (variance.h lines 199-219).  Returns the value
together with the updated object (the C++ method mutates the cache). -/
def Variance.get_variance (vt : Bool) (s : Variance) : EDouble × Variance :=
  if s.recalculate then
    let variance_value :=
      if s.counter ≠ 0 then
        let n : ℚ := (s.counter : ℚ)
        let adjustment :=
          EDouble.div (.finite 1) (.finite (n * (n - (Variance.Adjustment vt : ℚ))))
        let square_of_sum := EDouble.mul (.finite s.sum) (.finite s.sum)
        EDouble.mul
          (EDouble.sub (EDouble.mul (.finite n) (.finite s.sum_of_squares)) square_of_sum)
          adjustment
      else
        .finite 0
    (variance_value, { s with variance_value := variance_value, recalculate := false })
  else
    (s.variance_value, s)

/-- `variance::operator double()` (variance.h lines 224-227): returns
`get_variance()`. -/
def Variance.toDouble (vt : Bool) (s : Variance) : EDouble × Variance :=
  s.get_variance vt

/-- `variance::count()` (variance.h lines 232-235): `size_t(this->counter)`;
the cast from `uint32_t` to `size_t` is value-preserving. -/
def Variance.count (s : Variance) : ℕ :=
  s.counter

/-- A client-visible operation on an `etl::variance` object. -/
inductive VarOp where
  | add (value : ℚ)
  | addRange (values : List ℚ)
  | clear
  | read
deriving DecidableEq

/-- Effect of one operation on a `variance` object (`read` is `get_variance()`
or `operator double()`, keeping the mutated object). -/
def Variance.step (vt : Bool) (s : Variance) : VarOp → Variance
  | .add v => s.add v
  | .addRange l => s.addRange l
  | .clear => s.clear
  | .read => (s.get_variance vt).2

/-- The `variance` object reached from the default constructor by a sequence
of client operations: exactly the reachable states of the class. -/
def Variance.run (vt : Bool) (ops : List VarOp) : Variance :=
  ops.foldl (Variance.step vt) Variance.init

/-- `etl::standard_deviation_type::Sample` (standard_deviation.h line 114). -/
def standard_deviation_type.Sample : Bool := false

/-- `etl::standard_deviation_type::Population` (standard_deviation.h line 115). -/
def standard_deviation_type.Population : Bool := true

/-- State of `etl::standard_deviation<Standard_Deviation_Type, TInput, TCalc>`:
`sum_of_squares`, `sum` and `counter` come from the base class
`private_standard_deviation::standard_deviation_traits`; `variance_value`,
`standard_deviation_value` and `recalculate` are the members of the derived
class (standard_deviation.h lines 48-64 and 265-267). -/
@[ext] structure StandardDeviation where
  sum_of_squares : ℚ
  sum : ℚ
  counter : ℕ
  variance_value : EDouble
  standard_deviation_value : RDouble
  recalculate : Bool

/-- `standard_deviation::Adjustment`:
`(Standard_Deviation_Type == standard_deviation_type::Population) ? 0 : 1`
(standard_deviation.h line 128). -/
def StandardDeviation.Adjustment (vt : Bool) : ℤ :=
  if vt = standard_deviation_type.Population then 0 else 1

/-- `standard_deviation_traits::clear()`: zeroes the sums and the counter; it
does not touch `recalculate` (standard_deviation.h lines 58-63). -/
def StandardDeviation.clear (s : StandardDeviation) : StandardDeviation :=
  { s with sum_of_squares := 0, sum := 0, counter := 0 }

/-- The default constructor `standard_deviation()`: member-initializes
`variance_value = 0.0`, `standard_deviation_value = 0.0`, `recalculate = true`,
then calls `this->clear()` (standard_deviation.h lines 135-141). -/
def StandardDeviation.init : StandardDeviation :=
  StandardDeviation.clear
    { sum_of_squares := 0, sum := 0, counter := 0,
      variance_value := .finite 0, standard_deviation_value := .finite 0,
      recalculate := true }

/-- `standard_deviation::add(TInput value)` (standard_deviation.h lines
159-165). -/
def StandardDeviation.add (s : StandardDeviation) (value : ℚ) : StandardDeviation :=
  { s with
    sum_of_squares := s.sum_of_squares + value * value,
    sum := s.sum + value,
    counter := (s.counter + 1) % 2 ^ 32,
    recalculate := true }

/-- `standard_deviation::add(TIterator first, TIterator last)`
(standard_deviation.h lines 171-177). -/
def StandardDeviation.addRange (s : StandardDeviation) : List ℚ → StandardDeviation
  | [] => s
  | value :: rest => (s.add value).addRange rest

/-- The range constructor `standard_deviation(TIterator first, TIterator last)`
(standard_deviation.h lines 147-154). -/
def StandardDeviation.ofRange (l : List ℚ) : StandardDeviation :=
  StandardDeviation.init.addRange l

/-- `standard_deviation::calculate()` (standard_deviation.h lines 239-263):
when dirty, resets both cached values to `0.0`, recomputes the variance if
`counter != 0`, takes its square root into `standard_deviation_value` only when
the variance is `> 0`, and clears the dirty flag. -/
noncomputable def StandardDeviation.calculate (vt : Bool) (s : StandardDeviation) :
    StandardDeviation :=
  if s.recalculate then
    if s.counter ≠ 0 then
      let n : ℚ := (s.counter : ℚ)
      let adjustment :=
        EDouble.div (.finite 1) (.finite (n * (n - (StandardDeviation.Adjustment vt : ℚ))))
      let square_of_sum := EDouble.mul (.finite s.sum) (.finite s.sum)
      let variance_value :=
        EDouble.mul
          (EDouble.sub (EDouble.mul (.finite n) (.finite s.sum_of_squares)) square_of_sum)
          adjustment
      let standard_deviation_value :=
        if variance_value.gtZero then variance_value.sqrtd else .finite 0
      { s with variance_value := variance_value,
               standard_deviation_value := standard_deviation_value,
               recalculate := false }
    else
      { s with variance_value := .finite 0, standard_deviation_value := .finite 0,
               recalculate := false }
  else
    s

/-- `standard_deviation::get_variance()` (standard_deviation.h lines 201-206):
calls `calculate()` and returns the cached variance, together with the updated
object. -/
noncomputable def StandardDeviation.get_variance (vt : Bool) (s : StandardDeviation) :
    EDouble × StandardDeviation :=
  ((s.calculate vt).variance_value, s.calculate vt)

/-- `standard_deviation::get_standard_deviation()` (standard_deviation.h lines
211-216). -/
noncomputable def StandardDeviation.get_standard_deviation (vt : Bool)
    (s : StandardDeviation) : RDouble × StandardDeviation :=
  ((s.calculate vt).standard_deviation_value, s.calculate vt)

/-- `standard_deviation::operator double()` (standard_deviation.h lines
221-224): returns `get_standard_deviation()`. -/
noncomputable def StandardDeviation.toDouble (vt : Bool) (s : StandardDeviation) :
    RDouble × StandardDeviation :=
  s.get_standard_deviation vt

/-- `standard_deviation::count()` (standard_deviation.h lines 229-232). -/
def StandardDeviation.count (s : StandardDeviation) : ℕ :=
  s.counter

/-- A client-visible operation on an `etl::standard_deviation` object. -/
inductive SdOp where
  | add (value : ℚ)
  | addRange (values : List ℚ)
  | clear
  | readVariance
  | readStandardDeviation
deriving DecidableEq

/-- Effect of one operation on a `standard_deviation` object (both read
operations call `calculate()`; `operator double()` behaves as
`readStandardDeviation`). -/
noncomputable def StandardDeviation.step (vt : Bool) (s : StandardDeviation) :
    SdOp → StandardDeviation
  | .add v => s.add v
  | .addRange l => s.addRange l
  | .clear => s.clear
  | .readVariance => (s.get_variance vt).2
  | .readStandardDeviation => (s.get_standard_deviation vt).2

/-- The `standard_deviation` object reached from the default constructor by a
sequence of client operations: exactly the reachable states of the class. -/
noncomputable def StandardDeviation.run (vt : Bool) (ops : List SdOp) : StandardDeviation :=
  ops.foldl (StandardDeviation.step vt) StandardDeviation.init

/-- The variance value as stated by the specification:
`((n * sum_of_squares) - sum^2) * (1 / (n * (n - bias)))` computed in double
arithmetic, where `n` is the count converted to double and `bias` is `0` for
the population variant and `1` for the sample variant (the compile-time flag
`vt`). -/
def varianceFormula (vt : Bool) (sum sum_of_squares : ℚ) (count : ℕ) : EDouble :=
  EDouble.mul
    (EDouble.sub
      (EDouble.mul (.finite (count : ℚ)) (.finite sum_of_squares))
      (EDouble.mul (.finite sum) (.finite sum)))
    (EDouble.div (.finite 1)
      (.finite ((count : ℚ) *
        ((count : ℚ) - (if vt = variance_type.Population then 0 else 1)))))

/-- One addition request: a single value or a range of values. -/
inductive AddOp where
  | one (value : ℚ)
  | range (values : List ℚ)

/-- Number of values an addition request carries. -/
def AddOp.size : AddOp → ℕ
  | .one _ => 1
  | .range l => l.length

/-- Apply a mix of single-value and range `add` calls to a `variance`. -/
def Variance.applyAdds (s : Variance) : List AddOp → Variance
  | [] => s
  | .one v :: rest => (s.add v).applyAdds rest
  | .range l :: rest => (s.addRange l).applyAdds rest

/-- Apply a mix of single-value and range `add` calls to a
`standard_deviation`. -/
def StandardDeviation.applyAdds (s : StandardDeviation) : List AddOp → StandardDeviation
  | [] => s
  | .one v :: rest => (s.add v).applyAdds rest
  | .range l :: rest => (s.addRange l).applyAdds rest

/-- The C++ numeric types that can instantiate the `TInput` and `TCalc`
template parameters. -/
inductive CppType where
  | float
  | double
  | integral (bits : ℕ) (signed : Bool)
deriving DecidableEq

/-- The type in which `private_variance::variance_traits<TInput, TCalc>`
stores `sum` and `sum_of_squares`: the primary template (variance.h lines
48-64) stores `TCalc`; the specializations for `TInput = float` (lines 69-85)
and `TInput = double` (lines 90-106) store `float` and `double` respectively,
regardless of `TCalc`. -/
def variance_traits.storage (TInput TCalc : CppType) : CppType :=
  match TInput with
  | .float => .float
  | .double => .double
  | .integral _ _ => TCalc

/-- The storage type of
`private_standard_deviation::standard_deviation_traits<TInput, TCalc>`
(standard_deviation.h lines 48-106), specialized identically. -/
def standard_deviation_traits.storage (TInput TCalc : CppType) : CppType :=
  match TInput with
  | .float => .float
  | .double => .double
  | .integral _ _ => TCalc

/-- Cache invariant of a `variance` object: whenever the object is clean and
holds at least one observation, the cached value is the specification's
variance formula of the current sums. -/
def Variance.Inv (vt : Bool) (s : Variance) : Prop :=
  s.recalculate = false → s.counter ≠ 0 →
    s.variance_value = varianceFormula vt s.sum s.sum_of_squares s.counter

/-- Cache invariant of a `standard_deviation` object: whenever the object is
clean, the cached variance of a nonempty accumulator is the specification's
formula, and the cached standard deviation is the square root of the cached
variance when that is positive and `0.0` otherwise. -/
def StandardDeviation.Inv (vt : Bool) (s : StandardDeviation) : Prop :=
  s.recalculate = false →
    (s.counter ≠ 0 →
      s.variance_value = varianceFormula vt s.sum s.sum_of_squares s.counter) ∧
    s.standard_deviation_value =
      (if s.variance_value.gtZero then s.variance_value.sqrtd else .finite 0)

/-- Round a rational to the nearest integer, ties to even. -/
def roundNearestEven (s : ℚ) : ℤ :=
  if s - ⌊s⌋ < 1 / 2 then ⌊s⌋
  else if 1 / 2 < s - ⌊s⌋ then ⌊s⌋ + 1
  else if ⌊s⌋ % 2 = 0 then ⌊s⌋ else ⌊s⌋ + 1

/-- IEEE-754 binary64 rounding (round to nearest, ties to even) of an exact
rational value: the significand is rounded to 53 bits.  The exponent range is
unbounded (no overflow or underflow), which is exact for every value arising
in the traces considered here. -/
def fl64 (q : ℚ) : ℚ :=
  if q = 0 then 0
  else
    (if q < 0 then -(roundNearestEven (|q| * 2 ^ ((52 : ℤ) - Int.log 2 |q|)) : ℚ)
     else (roundNearestEven (|q| * 2 ^ ((52 : ℤ) - Int.log 2 |q|)) : ℚ)) *
      2 ^ (Int.log 2 |q| - 52)

/-- Round the finite part of a double operation result to binary64 precision
(a correctly rounded IEEE operation); special values pass through. -/
def EDouble.rnd : EDouble → EDouble
  | .finite q => .finite (fl64 q)
  | .inf => .inf
  | .neginf => .neginf
  | .nan => .nan

/-- State of the instantiation `etl::variance<Variance_Type, double, double>`:
the same fields as `Variance`, but the sums are stored as binary64 `double`
values (the `variance_traits<double, TCalc>` specialization, variance.h lines
90-106, stores them as `double`; cf. C9), so every accumulation step rounds. -/
@[ext] structure VarianceD where
  sum_of_squares : ℚ
  sum : ℚ
  counter : ℕ
  variance_value : EDouble
  recalculate : Bool
deriving DecidableEq

/-- `variance_traits<double, TCalc>::clear()` (variance.h lines 100-105). -/
def VarianceD.clear (s : VarianceD) : VarianceD :=
  { s with sum_of_squares := 0, sum := 0, counter := 0 }

/-- The default constructor of `variance<., double, double>` (variance.h
lines 135-140). -/
def VarianceD.init : VarianceD :=
  VarianceD.clear
    { sum_of_squares := 0, sum := 0, counter := 0,
      variance_value := .finite 0, recalculate := true }

/-- `variance::add(TInput value)` at `TInput = TCalc = double` (variance.h
lines 157-163): `value * value` is a double multiplication, so its exact
result is rounded, and each `+=` on the stored `double` sums rounds again. -/
def VarianceD.add (s : VarianceD) (value : ℚ) : VarianceD :=
  { s with
    sum_of_squares := fl64 (s.sum_of_squares + fl64 (value * value)),
    sum := fl64 (s.sum + value),
    counter := (s.counter + 1) % 2 ^ 32,
    recalculate := true }

/-- `variance::add(TIterator first, TIterator last)` at the `double`
instantiation (variance.h lines 169-175). -/
def VarianceD.addRange (s : VarianceD) : List ℚ → VarianceD
  | [] => s
  | value :: rest => (s.add value).addRange rest

/-- `variance::get_variance()` at `TInput = TCalc = double` (variance.h lines
199-219): each double operation rounds its exact result to binary64; the
`uint32_t` to `double` conversion of the counter is exact (every `uint32_t`
value is representable). -/
def VarianceD.get_variance (vt : Bool) (s : VarianceD) : EDouble × VarianceD :=
  if s.recalculate then
    let variance_value :=
      if s.counter ≠ 0 then
        let n : ℚ := (s.counter : ℚ)
        let adjustment :=
          (EDouble.div (.finite 1)
            (.finite (fl64 (n * fl64 (n - (Variance.Adjustment vt : ℚ)))))).rnd
        let square_of_sum := (EDouble.mul (.finite s.sum) (.finite s.sum)).rnd
        (((EDouble.mul (.finite n) (.finite s.sum_of_squares)).rnd.sub
          square_of_sum).rnd.mul adjustment).rnd
      else
        .finite 0
    (variance_value, { s with variance_value := variance_value, recalculate := false })
  else
    (s.variance_value, s)

/-! ### Helper lemmas about `variance` -/

theorem Variance.addRange_sum (l : List ℚ) (s : Variance) :
    (s.addRange l).sum = s.sum + l.sum := by
  induction l generalizing s with
  | nil => simp [Variance.addRange]
  | cons v rest ih => simp [Variance.addRange, ih, Variance.add]; ring

theorem Variance.addRange_sum_of_squares (l : List ℚ) (s : Variance) :
    (s.addRange l).sum_of_squares = s.sum_of_squares + (l.map fun v => v * v).sum := by
  induction l generalizing s with
  | nil => simp [Variance.addRange]
  | cons v rest ih => simp [Variance.addRange, ih, Variance.add]; ring

theorem Variance.addRange_counter (l : List ℚ) (s : Variance)
    (h : s.counter < 2 ^ 32) :
    (s.addRange l).counter = (s.counter + l.length) % 2 ^ 32 := by
  induction l generalizing s with
  | nil =>
      simp only [Variance.addRange, List.length_nil]
      omega
  | cons v rest ih =>
      rw [Variance.addRange, ih (s.add v) (Nat.mod_lt _ (by decide))]
      simp only [Variance.add, List.length_cons, Nat.mod_add_mod]
      ring_nf

theorem Variance.addRange_variance_value (l : List ℚ) (s : Variance) :
    (s.addRange l).variance_value = s.variance_value := by
  induction l generalizing s with
  | nil => simp [Variance.addRange]
  | cons v rest ih => simp [Variance.addRange, ih, Variance.add]

theorem Variance.addRange_recalculate (l : List ℚ) (s : Variance) :
    (s.addRange l).recalculate = (if l = [] then s.recalculate else true) := by
  induction l generalizing s with
  | nil => simp [Variance.addRange]
  | cons v rest ih =>
      simp only [Variance.addRange, ih, Variance.add]
      cases rest <;> simp

theorem Variance.addRange_eq_foldl (l : List ℚ) (s : Variance) :
    s.addRange l = l.foldl Variance.add s := by
  induction l generalizing s with
  | nil => simp [Variance.addRange]
  | cons v rest ih => simp [Variance.addRange, ih, List.foldl_cons]

theorem Variance.init_addRange (l : List ℚ) :
    Variance.init.addRange l =
      { sum_of_squares := (l.map fun v => v * v).sum, sum := l.sum,
        counter := l.length % 2 ^ 32, variance_value := .finite 0,
        recalculate := true } := by
  ext
  · rw [Variance.addRange_sum_of_squares]; simp [Variance.init, Variance.clear]
  · rw [Variance.addRange_sum]; simp [Variance.init, Variance.clear]
  · rw [Variance.addRange_counter l Variance.init (by decide)]
    simp [Variance.init, Variance.clear]
  · rw [Variance.addRange_variance_value]; simp [Variance.init, Variance.clear]
  · rw [Variance.addRange_recalculate]
    cases l <;> simp [Variance.init, Variance.clear]

theorem Variance.applyAdds_counter (ops : List AddOp) (s : Variance)
    (h : s.counter < 2 ^ 32) :
    (s.applyAdds ops).counter = (s.counter + (ops.map AddOp.size).sum) % 2 ^ 32 := by
  induction ops generalizing s with
  | nil =>
      simp only [Variance.applyAdds, List.map_nil, List.sum_nil]
      omega
  | cons op rest ih =>
      cases op with
      | one v =>
          rw [Variance.applyAdds, ih (s.add v) (Nat.mod_lt _ (by decide))]
          simp only [Variance.add, List.map_cons, List.sum_cons, AddOp.size, Nat.mod_add_mod]
          ring_nf
      | range l =>
          rw [Variance.applyAdds, ih (s.addRange l)
            (by rw [Variance.addRange_counter l s h]; exact Nat.mod_lt _ (by decide))]
          rw [Variance.addRange_counter l s h]
          simp only [List.map_cons, List.sum_cons, AddOp.size, Nat.mod_add_mod]
          ring_nf

theorem Variance.Adjustment_cast (vt : Bool) :
    ((Variance.Adjustment vt : ℤ) : ℚ) = if vt = variance_type.Population then 0 else 1 := by
  cases vt <;> simp [Variance.Adjustment]

theorem Variance.get_variance_clean (vt : Bool) (s : Variance)
    (h : s.recalculate = false) :
    s.get_variance vt = (s.variance_value, s) := by
  simp only [Variance.get_variance, h, Bool.false_eq_true, if_false]

theorem Variance.get_variance_dirty_zero (vt : Bool) (s : Variance)
    (h : s.recalculate = true) (hc : s.counter = 0) :
    s.get_variance vt =
      (.finite 0, { s with variance_value := .finite 0, recalculate := false }) := by
  simp only [Variance.get_variance, h, if_true, hc, ne_eq, not_true_eq_false, if_false]

theorem Variance.get_variance_dirty (vt : Bool) (s : Variance)
    (h : s.recalculate = true) (hc : s.counter ≠ 0) :
    s.get_variance vt =
      (varianceFormula vt s.sum s.sum_of_squares s.counter,
       { s with variance_value := varianceFormula vt s.sum s.sum_of_squares s.counter,
                recalculate := false }) := by
  simp only [Variance.get_variance, h, if_true, hc, ne_eq, not_false_eq_true,
    varianceFormula, Variance.Adjustment_cast]

theorem Variance.inv_init (vt : Bool) : Variance.Inv vt Variance.init := by
  intro h1
  exact absurd h1 (by decide)

theorem Variance.inv_step (vt : Bool) (s : Variance) (op : VarOp)
    (h : Variance.Inv vt s) : Variance.Inv vt (s.step vt op) := by
  cases op with
  | add v =>
      intro h1
      simp [Variance.step, Variance.add] at h1
  | addRange l =>
      cases l with
      | nil => exact h
      | cons v rest =>
          intro h1
          rw [Variance.step, Variance.addRange_recalculate] at h1
          simp at h1
  | clear =>
      intro _ h2
      simp [Variance.step, Variance.clear] at h2
  | read =>
      cases hr : s.recalculate with
      | false =>
          rw [Variance.step, Variance.get_variance_clean vt s hr]
          exact h
      | true =>
          by_cases hc : s.counter = 0
          · rw [Variance.step, Variance.get_variance_dirty_zero vt s hr hc]
            intro _ h2
            exact absurd hc h2
          · rw [Variance.step, Variance.get_variance_dirty vt s hr hc]
            intro _ _
            rfl

theorem Variance.inv_run (vt : Bool) (ops : List VarOp) :
    Variance.Inv vt (Variance.run vt ops) := by
  suffices h : ∀ (l : List VarOp) (s : Variance),
      Variance.Inv vt s → Variance.Inv vt (l.foldl (Variance.step vt) s) by
    exact h ops Variance.init (Variance.inv_init vt)
  intro l
  induction l with
  | nil => exact fun s hs => hs
  | cons op rest ih => exact fun s hs => ih _ (Variance.inv_step vt s op hs)

/-! ### Helper lemmas about `standard_deviation` -/

theorem StandardDeviation.sd_addRange_sum (l : List ℚ) (s : StandardDeviation) :
    (s.addRange l).sum = s.sum + l.sum := by
  induction l generalizing s with
  | nil => simp [StandardDeviation.addRange]
  | cons v rest ih => simp [StandardDeviation.addRange, ih, StandardDeviation.add]; ring

theorem StandardDeviation.sd_addRange_sum_of_squares (l : List ℚ) (s : StandardDeviation) :
    (s.addRange l).sum_of_squares = s.sum_of_squares + (l.map fun v => v * v).sum := by
  induction l generalizing s with
  | nil => simp [StandardDeviation.addRange]
  | cons v rest ih => simp [StandardDeviation.addRange, ih, StandardDeviation.add]; ring

theorem StandardDeviation.sd_addRange_counter (l : List ℚ) (s : StandardDeviation)
    (h : s.counter < 2 ^ 32) :
    (s.addRange l).counter = (s.counter + l.length) % 2 ^ 32 := by
  induction l generalizing s with
  | nil =>
      simp only [StandardDeviation.addRange, List.length_nil]
      omega
  | cons v rest ih =>
      rw [StandardDeviation.addRange, ih (s.add v) (Nat.mod_lt _ (by decide))]
      simp only [StandardDeviation.add, List.length_cons, Nat.mod_add_mod]
      ring_nf

theorem StandardDeviation.sd_addRange_variance_value (l : List ℚ) (s : StandardDeviation) :
    (s.addRange l).variance_value = s.variance_value := by
  induction l generalizing s with
  | nil => simp [StandardDeviation.addRange]
  | cons v rest ih => simp [StandardDeviation.addRange, ih, StandardDeviation.add]

theorem StandardDeviation.addRange_sd_value (l : List ℚ) (s : StandardDeviation) :
    (s.addRange l).standard_deviation_value = s.standard_deviation_value := by
  induction l generalizing s with
  | nil => simp [StandardDeviation.addRange]
  | cons v rest ih => simp [StandardDeviation.addRange, ih, StandardDeviation.add]

theorem StandardDeviation.sd_addRange_recalculate (l : List ℚ) (s : StandardDeviation) :
    (s.addRange l).recalculate = (if l = [] then s.recalculate else true) := by
  induction l generalizing s with
  | nil => simp [StandardDeviation.addRange]
  | cons v rest ih =>
      simp only [StandardDeviation.addRange, ih, StandardDeviation.add]
      cases rest <;> simp

theorem StandardDeviation.sd_addRange_eq_foldl (l : List ℚ) (s : StandardDeviation) :
    s.addRange l = l.foldl StandardDeviation.add s := by
  induction l generalizing s with
  | nil => simp [StandardDeviation.addRange]
  | cons v rest ih => simp [StandardDeviation.addRange, ih, List.foldl_cons]

theorem StandardDeviation.sd_init_addRange (l : List ℚ) :
    StandardDeviation.init.addRange l =
      { sum_of_squares := (l.map fun v => v * v).sum, sum := l.sum,
        counter := l.length % 2 ^ 32, variance_value := .finite 0,
        standard_deviation_value := .finite 0, recalculate := true } := by
  ext
  · rw [StandardDeviation.sd_addRange_sum_of_squares]
    simp [StandardDeviation.init, StandardDeviation.clear]
  · rw [StandardDeviation.sd_addRange_sum]
    simp [StandardDeviation.init, StandardDeviation.clear]
  · rw [StandardDeviation.sd_addRange_counter l StandardDeviation.init (by decide)]
    simp [StandardDeviation.init, StandardDeviation.clear]
  · rw [StandardDeviation.sd_addRange_variance_value]
    simp [StandardDeviation.init, StandardDeviation.clear]
  · rw [StandardDeviation.addRange_sd_value]
    simp [StandardDeviation.init, StandardDeviation.clear]
  · rw [StandardDeviation.sd_addRange_recalculate]
    cases l <;> simp [StandardDeviation.init, StandardDeviation.clear]

theorem StandardDeviation.sd_applyAdds_counter (ops : List AddOp) (s : StandardDeviation)
    (h : s.counter < 2 ^ 32) :
    (s.applyAdds ops).counter = (s.counter + (ops.map AddOp.size).sum) % 2 ^ 32 := by
  induction ops generalizing s with
  | nil =>
      simp only [StandardDeviation.applyAdds, List.map_nil, List.sum_nil]
      omega
  | cons op rest ih =>
      cases op with
      | one v =>
          rw [StandardDeviation.applyAdds, ih (s.add v) (Nat.mod_lt _ (by decide))]
          simp only [StandardDeviation.add, List.map_cons, List.sum_cons, AddOp.size,
            Nat.mod_add_mod]
          ring_nf
      | range l =>
          rw [StandardDeviation.applyAdds, ih (s.addRange l)
            (by rw [StandardDeviation.sd_addRange_counter l s h]; exact Nat.mod_lt _ (by decide))]
          rw [StandardDeviation.sd_addRange_counter l s h]
          simp only [List.map_cons, List.sum_cons, AddOp.size, Nat.mod_add_mod]
          ring_nf

theorem StandardDeviation.sd_Adjustment_cast (vt : Bool) :
    ((StandardDeviation.Adjustment vt : ℤ) : ℚ) =
      if vt = variance_type.Population then 0 else 1 := by
  cases vt <;>
    simp [StandardDeviation.Adjustment, standard_deviation_type.Population,
      variance_type.Population]

theorem StandardDeviation.calculate_clean (vt : Bool) (s : StandardDeviation)
    (h : s.recalculate = false) :
    s.calculate vt = s := by
  simp only [StandardDeviation.calculate, h, Bool.false_eq_true, if_false]

theorem StandardDeviation.calculate_dirty_zero (vt : Bool) (s : StandardDeviation)
    (h : s.recalculate = true) (hc : s.counter = 0) :
    s.calculate vt =
      { s with variance_value := .finite 0, standard_deviation_value := .finite 0,
               recalculate := false } := by
  simp only [StandardDeviation.calculate, h, if_true, hc, ne_eq, not_true_eq_false, if_false]

theorem StandardDeviation.calculate_dirty (vt : Bool) (s : StandardDeviation)
    (h : s.recalculate = true) (hc : s.counter ≠ 0) :
    s.calculate vt =
      { s with
        variance_value := varianceFormula vt s.sum s.sum_of_squares s.counter,
        standard_deviation_value :=
          if (varianceFormula vt s.sum s.sum_of_squares s.counter).gtZero then
            (varianceFormula vt s.sum s.sum_of_squares s.counter).sqrtd
          else .finite 0,
        recalculate := false } := by
  simp only [StandardDeviation.calculate, h, if_true, hc, ne_eq, not_false_eq_true,
    varianceFormula, StandardDeviation.sd_Adjustment_cast]

theorem StandardDeviation.sd_inv_init (vt : Bool) : StandardDeviation.Inv vt StandardDeviation.init := by
  intro h1
  exact absurd h1 (by decide)

theorem StandardDeviation.calculate_recalculate (vt : Bool) (s : StandardDeviation) :
    (s.calculate vt).recalculate = false := by
  cases hr : s.recalculate with
  | false => rw [StandardDeviation.calculate_clean vt s hr]; exact hr
  | true =>
      by_cases hc : s.counter = 0
      · rw [StandardDeviation.calculate_dirty_zero vt s hr hc]
      · rw [StandardDeviation.calculate_dirty vt s hr hc]

theorem StandardDeviation.calculate_inv (vt : Bool) (s : StandardDeviation)
    (h : StandardDeviation.Inv vt s) : StandardDeviation.Inv vt (s.calculate vt) := by
  cases hr : s.recalculate with
  | false => rw [StandardDeviation.calculate_clean vt s hr]; exact h
  | true =>
      by_cases hc : s.counter = 0
      · rw [StandardDeviation.calculate_dirty_zero vt s hr hc]
        intro _
        refine ⟨fun h2 => absurd hc h2, ?_⟩
        simp [EDouble.gtZero]
      · rw [StandardDeviation.calculate_dirty vt s hr hc]
        intro _
        exact ⟨fun _ => rfl, rfl⟩

theorem StandardDeviation.sd_inv_step (vt : Bool) (s : StandardDeviation) (op : SdOp)
    (h : StandardDeviation.Inv vt s) : StandardDeviation.Inv vt (s.step vt op) := by
  cases op with
  | add v =>
      intro h1
      simp [StandardDeviation.step, StandardDeviation.add] at h1
  | addRange l =>
      cases l with
      | nil => exact h
      | cons v rest =>
          intro h1
          rw [StandardDeviation.step, StandardDeviation.sd_addRange_recalculate] at h1
          simp at h1
  | clear =>
      intro h1
      have h2 := h (by simpa [StandardDeviation.clear] using h1)
      refine ⟨fun hc => absurd rfl hc, ?_⟩
      simpa [StandardDeviation.clear] using h2.2
  | readVariance =>
      exact StandardDeviation.calculate_inv vt s h
  | readStandardDeviation =>
      exact StandardDeviation.calculate_inv vt s h

theorem StandardDeviation.sd_inv_run (vt : Bool) (ops : List SdOp) :
    StandardDeviation.Inv vt (StandardDeviation.run vt ops) := by
  suffices h : ∀ (l : List SdOp) (s : StandardDeviation),
      StandardDeviation.Inv vt s → StandardDeviation.Inv vt (l.foldl (StandardDeviation.step vt) s) by
    exact h ops StandardDeviation.init (StandardDeviation.sd_inv_init vt)
  intro l
  induction l with
  | nil => exact fun s hs => hs
  | cons op rest ih => exact fun s hs => ih _ (StandardDeviation.sd_inv_step vt s op hs)

theorem StandardDeviation.calculate_sum (vt : Bool) (s : StandardDeviation) :
    (s.calculate vt).sum = s.sum := by
  cases hr : s.recalculate with
  | false => rw [StandardDeviation.calculate_clean vt s hr]
  | true =>
      by_cases hc : s.counter = 0
      · rw [StandardDeviation.calculate_dirty_zero vt s hr hc]
      · rw [StandardDeviation.calculate_dirty vt s hr hc]

theorem StandardDeviation.calculate_sum_of_squares (vt : Bool) (s : StandardDeviation) :
    (s.calculate vt).sum_of_squares = s.sum_of_squares := by
  cases hr : s.recalculate with
  | false => rw [StandardDeviation.calculate_clean vt s hr]
  | true =>
      by_cases hc : s.counter = 0
      · rw [StandardDeviation.calculate_dirty_zero vt s hr hc]
      · rw [StandardDeviation.calculate_dirty vt s hr hc]

theorem StandardDeviation.calculate_counter (vt : Bool) (s : StandardDeviation) :
    (s.calculate vt).counter = s.counter := by
  cases hr : s.recalculate with
  | false => rw [StandardDeviation.calculate_clean vt s hr]
  | true =>
      by_cases hc : s.counter = 0
      · rw [StandardDeviation.calculate_dirty_zero vt s hr hc]
      · rw [StandardDeviation.calculate_dirty vt s hr hc]

/-! ### Claim theorems -/

/-- C1: for every reachable `variance` or `standard_deviation` accumulator
(either variant, fixed by the compile-time flag `vt`) holding at least one
observation, `get_variance()` returns
`((n * sum_of_squares) - sum^2) * (1 / (n * (n - bias)))` computed in double
arithmetic, where `n` is the count converted to double and `bias` is `0` for
the population variant and `1` for the sample variant. -/
theorem C1_get_variance_formula (vt : Bool) (ops : List VarOp) (sops : List SdOp)
    (h1 : 0 < (Variance.run vt ops).count)
    (h2 : 0 < (StandardDeviation.run vt sops).count) :
    ((Variance.run vt ops).get_variance vt).1 =
      varianceFormula vt (Variance.run vt ops).sum
        (Variance.run vt ops).sum_of_squares (Variance.run vt ops).count ∧
    ((StandardDeviation.run vt sops).get_variance vt).1 =
      varianceFormula vt (StandardDeviation.run vt sops).sum
        (StandardDeviation.run vt sops).sum_of_squares
        (StandardDeviation.run vt sops).count := by
  constructor
  · have hc : (Variance.run vt ops).counter ≠ 0 := Nat.pos_iff_ne_zero.mp h1
    cases hr : (Variance.run vt ops).recalculate with
    | true =>
        rw [Variance.get_variance_dirty vt _ hr hc]
        rfl
    | false =>
        rw [Variance.get_variance_clean vt _ hr]
        exact Variance.inv_run vt ops hr hc
  · have hc : (StandardDeviation.run vt sops).counter ≠ 0 := Nat.pos_iff_ne_zero.mp h2
    have hI := StandardDeviation.calculate_inv vt _ (StandardDeviation.sd_inv_run vt sops)
      (StandardDeviation.calculate_recalculate vt _)
    have hc' : ((StandardDeviation.run vt sops).calculate vt).counter ≠ 0 := by
      rw [StandardDeviation.calculate_counter]; exact hc
    have h3 := hI.1 hc'
    rw [StandardDeviation.calculate_sum, StandardDeviation.calculate_sum_of_squares,
      StandardDeviation.calculate_counter] at h3
    exact h3

/-- Witness for C1: two observations in a population-variant `variance` and
one observation in a population-variant `standard_deviation`. -/
theorem C1_get_variance_formula_witness :
    0 < (Variance.run variance_type.Population [.add 2, .add 4]).count ∧
    0 < (StandardDeviation.run variance_type.Population [.add 3]).count ∧
    (((Variance.run variance_type.Population [.add 2, .add 4]).get_variance
        variance_type.Population).1 =
      varianceFormula variance_type.Population
        (Variance.run variance_type.Population [.add 2, .add 4]).sum
        (Variance.run variance_type.Population [.add 2, .add 4]).sum_of_squares
        (Variance.run variance_type.Population [.add 2, .add 4]).count ∧
    ((StandardDeviation.run variance_type.Population [.add 3]).get_variance
        variance_type.Population).1 =
      varianceFormula variance_type.Population
        (StandardDeviation.run variance_type.Population [.add 3]).sum
        (StandardDeviation.run variance_type.Population [.add 3]).sum_of_squares
        (StandardDeviation.run variance_type.Population [.add 3]).count) :=
  ⟨by decide, by decide,
    C1_get_variance_formula variance_type.Population [.add 2, .add 4] [.add 3]
      (by decide) (by decide)⟩

theorem EDouble.sqrtd_branch_nonneg (v : EDouble) :
    RDouble.IsNonneg (if v.gtZero then v.sqrtd else .finite 0) := by
  cases v with
  | finite q =>
      by_cases hq : 0 < q
      · simp only [EDouble.gtZero, hq, decide_True, EDouble.sqrtd, le_of_lt hq, if_true]
        simp [RDouble.IsNonneg, Real.sqrt_nonneg]
      · simp only [EDouble.gtZero, hq, decide_False, if_false]
        simp [RDouble.IsNonneg]
  | inf => simp [EDouble.gtZero, EDouble.sqrtd, RDouble.IsNonneg]
  | neginf => simp [EDouble.gtZero, RDouble.IsNonneg]
  | nan => simp [EDouble.gtZero, RDouble.IsNonneg]

/-- C2: on every reachable `standard_deviation` accumulator,
`get_standard_deviation()` returns the non-negative square root of the value
`get_variance()` returns whenever that variance is strictly positive, and
returns `0.0` whenever the computed variance is less than or equal to zero
(in particular with zero observations); the returned value is never
negative. -/
theorem C2_standard_deviation_sqrt (vt : Bool) (ops : List SdOp) :
    ((StandardDeviation.run vt ops).get_standard_deviation vt).1 =
      (if ((StandardDeviation.run vt ops).get_variance vt).1.gtZero then
        ((StandardDeviation.run vt ops).get_variance vt).1.sqrtd
      else .finite 0) ∧
    RDouble.IsNonneg ((StandardDeviation.run vt ops).get_standard_deviation vt).1 := by
  have hI := StandardDeviation.calculate_inv vt _ (StandardDeviation.sd_inv_run vt ops)
    (StandardDeviation.calculate_recalculate vt _)
  refine ⟨hI.2, ?_⟩
  have h := EDouble.sqrtd_branch_nonneg
    (((StandardDeviation.run vt ops).calculate vt).variance_value)
  rw [← hI.2] at h
  exact h

/-- C3 counterexample: the claim fails for a cleared accumulator.  After
`add(2); add(4); get_variance(); clear();` the accumulator holds zero
observations (`count() == 0`), yet `get_variance()` returns the stale cached
value `1.0`, not `0.0`: `variance_traits::clear()` resets the sums and the
counter but leaves `recalculate == false`, so the next read returns the cache
computed before the clear. -/
theorem C3_counterexample :
    (Variance.run variance_type.Population [.add 2, .add 4, .read, .clear]).count = 0 ∧
    ((Variance.run variance_type.Population [.add 2, .add 4, .read, .clear]).get_variance
        variance_type.Population).1 = EDouble.finite 1 ∧
    ((Variance.run variance_type.Population [.add 2, .add 4, .read, .clear]).get_variance
        variance_type.Population).1 ≠ EDouble.finite 0 := by
  refine ⟨by decide, ?_, ?_⟩ <;>
    norm_num [Variance.run, Variance.step, Variance.add, Variance.clear, Variance.init,
      Variance.get_variance, Variance.Adjustment, variance_type.Population,
      EDouble.mul, EDouble.sub, EDouble.div, List.foldl]

/-- C3 (amended): a freshly constructed accumulator reports variance `0.0`
(and standard deviation `0.0` for the standard-deviation variant) and
`count() == 0`; a cleared accumulator always reports `count() == 0`, and its
getters report `0.0` provided the accumulator was dirty when cleared (the
trait `clear()` does not set the dirty flag, so clearing a clean accumulator
leaves a stale cached value behind).  The zero result is an ordinary return
value, not a signalled error. -/
theorem C3_zero_observations (vt : Bool) (s : Variance) (t : StandardDeviation)
    (hs : s.recalculate = true) (ht : t.recalculate = true) :
    (Variance.init.get_variance vt).1 = EDouble.finite 0 ∧
    Variance.init.count = 0 ∧
    (StandardDeviation.init.get_variance vt).1 = EDouble.finite 0 ∧
    ((StandardDeviation.init.get_standard_deviation vt).1 = RDouble.finite 0) ∧
    StandardDeviation.init.count = 0 ∧
    ((s.clear).get_variance vt).1 = EDouble.finite 0 ∧
    (s.clear).count = 0 ∧
    ((t.clear).get_variance vt).1 = EDouble.finite 0 ∧
    ((t.clear).get_standard_deviation vt).1 = RDouble.finite 0 ∧
    (t.clear).count = 0 := by
  have hsc : (s.clear).recalculate = true := hs
  have htc : (t.clear).recalculate = true := ht
  refine ⟨?_, rfl, ?_, ?_, rfl, ?_, rfl, ?_, ?_, rfl⟩
  · rw [Variance.get_variance_dirty_zero vt Variance.init rfl rfl]
  · rw [StandardDeviation.get_variance,
      StandardDeviation.calculate_dirty_zero vt StandardDeviation.init rfl rfl]
  · rw [StandardDeviation.get_standard_deviation,
      StandardDeviation.calculate_dirty_zero vt StandardDeviation.init rfl rfl]
  · rw [Variance.get_variance_dirty_zero vt s.clear hsc rfl]
  · rw [StandardDeviation.get_variance,
      StandardDeviation.calculate_dirty_zero vt t.clear htc rfl]
  · rw [StandardDeviation.get_standard_deviation,
      StandardDeviation.calculate_dirty_zero vt t.clear htc rfl]

/-- Witness for C3 (amended): the freshly constructed accumulators themselves
are dirty, so clearing them keeps the zero-report behavior. -/
theorem C3_zero_observations_witness :
    Variance.init.recalculate = true ∧
    StandardDeviation.init.recalculate = true ∧
    ((Variance.init.get_variance variance_type.Population).1 = EDouble.finite 0 ∧
      Variance.init.count = 0 ∧
      (StandardDeviation.init.get_variance variance_type.Population).1 = EDouble.finite 0 ∧
      ((StandardDeviation.init.get_standard_deviation variance_type.Population).1 =
        RDouble.finite 0) ∧
      StandardDeviation.init.count = 0 ∧
      ((Variance.init.clear).get_variance variance_type.Population).1 = EDouble.finite 0 ∧
      (Variance.init.clear).count = 0 ∧
      ((StandardDeviation.init.clear).get_variance variance_type.Population).1 =
        EDouble.finite 0 ∧
      ((StandardDeviation.init.clear).get_standard_deviation variance_type.Population).1 =
        RDouble.finite 0 ∧
      (StandardDeviation.init.clear).count = 0) :=
  ⟨rfl, rfl,
    C3_zero_observations variance_type.Population Variance.init StandardDeviation.init rfl rfl⟩

theorem varianceFormula_sample_single (x : ℚ) :
    varianceFormula variance_type.Sample x (x * x) 1 = EDouble.nan := by
  simp only [varianceFormula, variance_type.Sample, variance_type.Population,
    Nat.cast_one, one_mul]
  norm_num [EDouble.mul, EDouble.sub, EDouble.div]

theorem Variance.add_single_nan (s : Variance) (x : ℚ) (h : s.counter = 0)
    (hsum : s.sum = 0) (hsq : s.sum_of_squares = 0) :
    ((s.add x).get_variance variance_type.Sample).1 = EDouble.nan := by
  have hr : (s.add x).recalculate = true := rfl
  have hc : (s.add x).counter ≠ 0 := by simp [Variance.add, h]
  rw [Variance.get_variance_dirty _ _ hr hc]
  have h1 : (s.add x).sum = x := by simp [Variance.add, hsum]
  have h2 : (s.add x).sum_of_squares = x * x := by simp [Variance.add, hsq]
  have h3 : (s.add x).counter = 1 := by simp [Variance.add, h]
  rw [h1, h2, h3, varianceFormula_sample_single]

theorem StandardDeviation.sd_add_single_nan (s : StandardDeviation) (x : ℚ)
    (h : s.counter = 0) (hsum : s.sum = 0) (hsq : s.sum_of_squares = 0) :
    ((s.add x).get_variance standard_deviation_type.Sample).1 = EDouble.nan := by
  have hr : (s.add x).recalculate = true := rfl
  have hc : (s.add x).counter ≠ 0 := by simp [StandardDeviation.add, h]
  rw [StandardDeviation.get_variance, StandardDeviation.calculate_dirty _ _ hr hc]
  have h1 : (s.add x).sum = x := by simp [StandardDeviation.add, hsum]
  have h2 : (s.add x).sum_of_squares = x * x := by simp [StandardDeviation.add, hsq]
  have h3 : (s.add x).counter = 1 := by simp [StandardDeviation.add, h]
  rw [h1, h2, h3]
  show varianceFormula standard_deviation_type.Sample x (x * x) 1 = EDouble.nan
  have hst : standard_deviation_type.Sample = variance_type.Sample := rfl
  rw [hst, varianceFormula_sample_single]

/-- C4: a sample-variant accumulator (`bias = 1`) holding exactly one
observation — reached by a single `add` after construction or after a
`clear()` — computes the adjustment `1 / (n * (n - 1))` with `n = 1`, a
division by zero giving `+inf`; the numerator `1 * x² - x²` is exactly `0`, so
`get_variance()` returns the non-finite value `0 * inf = nan`.  No guard
rejects or replaces this case. -/
theorem C4_sample_single_nonfinite (x : ℚ) (s : Variance) (t : StandardDeviation) :
    ((Variance.init.add x).get_variance variance_type.Sample).1 = EDouble.nan ∧
    (((s.clear).add x).get_variance variance_type.Sample).1 = EDouble.nan ∧
    ((StandardDeviation.init.add x).get_variance standard_deviation_type.Sample).1 =
      EDouble.nan ∧
    (((t.clear).add x).get_variance standard_deviation_type.Sample).1 = EDouble.nan ∧
    EDouble.isFinite EDouble.nan = false :=
  ⟨Variance.add_single_nan Variance.init x rfl rfl rfl,
   Variance.add_single_nan s.clear x rfl rfl rfl,
   StandardDeviation.sd_add_single_nan StandardDeviation.init x rfl rfl rfl,
   StandardDeviation.sd_add_single_nan t.clear x rfl rfl rfl,
   rfl⟩

/-- C5 counterexample: the count is not always the number of added values.
After exactly `2 ^ 32` single-value `add` calls on a fresh accumulator the
32-bit counter wraps around, and `count()` returns `0`, not `2 ^ 32`. -/
theorem C5_counterexample :
    (Variance.init.addRange (List.replicate (2 ^ 32) (0 : ℚ))).count ≠
      (List.replicate (2 ^ 32) (0 : ℚ)).length ∧
    (Variance.init.addRange (List.replicate (2 ^ 32) (0 : ℚ))).count = 0 := by
  have h := Variance.addRange_counter (List.replicate (2 ^ 32) (0 : ℚ))
    Variance.init (by decide)
  have h0 : Variance.init.counter = 0 := rfl
  rw [List.length_replicate, h0, Nat.zero_add, Nat.mod_self] at h
  constructor
  · rw [List.length_replicate, Variance.count, h]
    norm_num
  · rw [Variance.count, h]

/-- C5 (amended): for every accumulator of either class, `count()` after
adding `k` values since construction — via any mix of single-value and range
`add` calls — equals `k` modulo `2 ^ 32`, hence equals `k` itself whenever
fewer than `2 ^ 32` values were added; and after a `clear()` it equals `0`. -/
theorem C5_count (s : Variance) (t : StandardDeviation) (ops : List AddOp) :
    (Variance.init.applyAdds ops).count = (ops.map AddOp.size).sum % 2 ^ 32 ∧
    (StandardDeviation.init.applyAdds ops).count = (ops.map AddOp.size).sum % 2 ^ 32 ∧
    ((ops.map AddOp.size).sum < 2 ^ 32 →
      (Variance.init.applyAdds ops).count = (ops.map AddOp.size).sum) ∧
    ((ops.map AddOp.size).sum < 2 ^ 32 →
      (StandardDeviation.init.applyAdds ops).count = (ops.map AddOp.size).sum) ∧
    (s.clear).count = 0 ∧
    (t.clear).count = 0 := by
  have hv := Variance.applyAdds_counter ops Variance.init (by decide)
  have hw := StandardDeviation.sd_applyAdds_counter ops StandardDeviation.init (by decide)
  have h0 : Variance.init.counter = 0 := rfl
  have h1 : StandardDeviation.init.counter = 0 := rfl
  rw [h0, Nat.zero_add] at hv
  rw [h1, Nat.zero_add] at hw
  refine ⟨hv, hw, ?_, ?_, rfl, rfl⟩
  · intro h
    rw [Variance.count, hv, Nat.mod_eq_of_lt h]
  · intro h
    rw [StandardDeviation.count, hw, Nat.mod_eq_of_lt h]

/-- Witness for C5 (amended): one single-value `add` followed by a two-element
range `add`, three values in total, exercising both the modulo clause and the
below-`2 ^ 32` clause. -/
theorem C5_count_witness :
    (([AddOp.one 1, AddOp.range [2, 3]].map AddOp.size).sum < 2 ^ 32) ∧
    (Variance.init.applyAdds [AddOp.one 1, AddOp.range [2, 3]]).count =
      ([AddOp.one 1, AddOp.range [2, 3]].map AddOp.size).sum % 2 ^ 32 ∧
    (StandardDeviation.init.applyAdds [AddOp.one 1, AddOp.range [2, 3]]).count =
      ([AddOp.one 1, AddOp.range [2, 3]].map AddOp.size).sum ∧
    (Variance.init.clear).count = 0 :=
  ⟨by decide,
   (C5_count Variance.init StandardDeviation.init [AddOp.one 1, AddOp.range [2, 3]]).1,
   (C5_count Variance.init StandardDeviation.init
      [AddOp.one 1, AddOp.range [2, 3]]).2.2.2.1 (by decide),
   (C5_count Variance.init StandardDeviation.init
      [AddOp.one 1, AddOp.range [2, 3]]).2.2.2.2.1⟩

/-- C10: the observation counter is a 32-bit unsigned integer incremented with
wraparound and no overflow check, so `count()` reports the number of `add`
calls modulo `2 ^ 32`; after exactly `2 ^ 32` single-value adds since the last
`clear()` (or since construction), `count()` returns `0` again. -/
theorem C10_counter_wraps (l : List ℚ) (s : Variance) (t : StandardDeviation) (x : ℚ) :
    (Variance.init.addRange l).count = l.length % 2 ^ 32 ∧
    (StandardDeviation.init.addRange l).count = l.length % 2 ^ 32 ∧
    ((s.clear).addRange (List.replicate (2 ^ 32) x)).count = 0 ∧
    ((t.clear).addRange (List.replicate (2 ^ 32) x)).count = 0 ∧
    (Variance.init.addRange (List.replicate (2 ^ 32) x)).count = 0 := by
  have h0 : Variance.init.counter = 0 := rfl
  have h1 : StandardDeviation.init.counter = 0 := rfl
  have hsc : (s.clear).counter = 0 := rfl
  have htc : (t.clear).counter = 0 := rfl
  refine ⟨?_, ?_, ?_, ?_, ?_⟩
  · rw [Variance.count, Variance.addRange_counter l Variance.init (by decide), h0,
      Nat.zero_add]
  · rw [StandardDeviation.count,
      StandardDeviation.sd_addRange_counter l StandardDeviation.init (by decide), h1,
      Nat.zero_add]
  · rw [Variance.count, Variance.addRange_counter _ s.clear (by rw [hsc]; decide), hsc,
      Nat.zero_add, List.length_replicate, Nat.mod_self]
  · rw [StandardDeviation.count,
      StandardDeviation.sd_addRange_counter _ t.clear (by rw [htc]; decide), htc,
      Nat.zero_add, List.length_replicate, Nat.mod_self]
  · rw [Variance.count, Variance.addRange_counter _ Variance.init (by decide), h0,
      Nat.zero_add, List.length_replicate, Nat.mod_self]

/-- C6: for every accumulator of either class and every getter
(`get_variance`, `get_standard_deviation`, the implicit `double` conversion),
the first read recomputes, caches the returned value, and clears the dirty
flag; a second read with no intervening `add` returns the identical value and
leaves the object unchanged; a read on a clean object returns the cached value
without recomputation (the object is returned as-is); and the `double`
conversion is exactly the class's primary getter. -/
theorem C6_getter_caching (vt : Bool) (s : Variance) (t : StandardDeviation) :
    (s.get_variance vt).2.recalculate = false ∧
    (s.get_variance vt).2.variance_value = (s.get_variance vt).1 ∧
    (s.get_variance vt).2.get_variance vt = ((s.get_variance vt).1, (s.get_variance vt).2) ∧
    s.toDouble vt = s.get_variance vt ∧
    (({ s with recalculate := false } : Variance).get_variance vt =
      (s.variance_value, { s with recalculate := false })) ∧
    (t.get_variance vt).2.recalculate = false ∧
    (t.get_variance vt).2.variance_value = (t.get_variance vt).1 ∧
    (t.get_standard_deviation vt).2.standard_deviation_value =
      (t.get_standard_deviation vt).1 ∧
    (t.get_variance vt).2.get_variance vt = ((t.get_variance vt).1, (t.get_variance vt).2) ∧
    (t.get_standard_deviation vt).2.get_standard_deviation vt =
      ((t.get_standard_deviation vt).1, (t.get_standard_deviation vt).2) ∧
    t.toDouble vt = t.get_standard_deviation vt ∧
    (({ t with recalculate := false } : StandardDeviation).get_variance vt =
      (t.variance_value, { t with recalculate := false })) ∧
    (({ t with recalculate := false } : StandardDeviation).get_standard_deviation vt =
      (t.standard_deviation_value, { t with recalculate := false })) := by
  have hv1 : (s.get_variance vt).2.recalculate = false := by
    cases hr : s.recalculate with
    | false => rw [Variance.get_variance_clean vt s hr]; exact hr
    | true =>
        by_cases hc : s.counter = 0
        · rw [Variance.get_variance_dirty_zero vt s hr hc]
        · rw [Variance.get_variance_dirty vt s hr hc]
  have hv2 : (s.get_variance vt).2.variance_value = (s.get_variance vt).1 := by
    cases hr : s.recalculate with
    | false => rw [Variance.get_variance_clean vt s hr]
    | true =>
        by_cases hc : s.counter = 0
        · rw [Variance.get_variance_dirty_zero vt s hr hc]
        · rw [Variance.get_variance_dirty vt s hr hc]
  have hv3 := Variance.get_variance_clean vt (s.get_variance vt).2 hv1
  rw [hv2] at hv3
  have hsidem : (t.calculate vt).calculate vt = t.calculate vt :=
    StandardDeviation.calculate_clean vt _ (StandardDeviation.calculate_recalculate vt t)
  refine ⟨hv1, hv2, hv3, rfl, ?_, StandardDeviation.calculate_recalculate vt t, rfl, rfl,
    ?_, ?_, rfl, ?_, ?_⟩
  · rw [Variance.get_variance_clean vt _ rfl]
  · simp only [StandardDeviation.get_variance, hsidem]
  · simp only [StandardDeviation.get_standard_deviation, hsidem]
  · simp only [StandardDeviation.get_variance,
      StandardDeviation.calculate_clean vt ({ t with recalculate := false }) rfl]
  · simp only [StandardDeviation.get_standard_deviation,
      StandardDeviation.calculate_clean vt ({ t with recalculate := false }) rfl]

/-- C7: for every finite input sequence, the range `add(first, last)` leaves
the accumulator in exactly the state reached by applying the single-value
`add` to each element in sequence order (a left fold), and the range
constructor is equivalent to default construction followed by that repeated
`add`; this holds for both classes. -/
theorem C7_range_add_is_repeated_add (s : Variance) (t : StandardDeviation) (l : List ℚ) :
    s.addRange l = l.foldl Variance.add s ∧
    Variance.ofRange l = l.foldl Variance.add Variance.init ∧
    t.addRange l = l.foldl StandardDeviation.add t ∧
    StandardDeviation.ofRange l = l.foldl StandardDeviation.add StandardDeviation.init :=
  ⟨Variance.addRange_eq_foldl l s,
   Variance.addRange_eq_foldl l Variance.init,
   StandardDeviation.sd_addRange_eq_foldl l t,
   StandardDeviation.sd_addRange_eq_foldl l StandardDeviation.init⟩

/-- C8 (amended): when the calculation arithmetic is exact — integer
calculation types, or the idealized exact accumulation of the `Variance` and
`StandardDeviation` models — adding the same finite multiset of values in any
order to a fresh accumulator yields the same final state (sum, sum-of-squares
and count are invariant under permutation) and hence the same
`get_variance()` and `get_standard_deviation()` results.  With `float` or
`double` accumulator storage each accumulation step rounds, and permutation
invariance fails: adding `{2^53, 3/4, 3/4, 0}` as doubles in two different
orders yields different sums and variances (shown separately at the `double`
instantiation `VarianceD`). -/
theorem C8_order_invariance (vt : Bool) (l1 l2 : List ℚ) (h : l1.Perm l2) :
    Variance.init.addRange l1 = Variance.init.addRange l2 ∧
    (Variance.init.addRange l1).get_variance vt =
      (Variance.init.addRange l2).get_variance vt ∧
    StandardDeviation.init.addRange l1 = StandardDeviation.init.addRange l2 ∧
    ((StandardDeviation.init.addRange l1).get_variance vt).1 =
      ((StandardDeviation.init.addRange l2).get_variance vt).1 ∧
    ((StandardDeviation.init.addRange l1).get_standard_deviation vt).1 =
      ((StandardDeviation.init.addRange l2).get_standard_deviation vt).1 := by
  have hsum : l1.sum = l2.sum := h.sum_eq
  have hsq : (l1.map fun v => v * v).sum = (l2.map fun v => v * v).sum :=
    (h.map fun v => v * v).sum_eq
  have hlen : l1.length = l2.length := h.length_eq
  have h1 : Variance.init.addRange l1 = Variance.init.addRange l2 := by
    rw [Variance.init_addRange, Variance.init_addRange, hsum, hsq, hlen]
  have h2 : StandardDeviation.init.addRange l1 = StandardDeviation.init.addRange l2 := by
    rw [StandardDeviation.sd_init_addRange, StandardDeviation.sd_init_addRange, hsum, hsq, hlen]
  exact ⟨h1, by rw [h1], h2, by rw [h2], by rw [h2]⟩

/-- Witness for C8: the two-element sequences `[1, 2]` and `[2, 1]`, a
transposition of each other. -/
theorem C8_order_invariance_witness :
    (([(1 : ℚ), 2]).Perm [2, 1]) ∧
    (Variance.init.addRange [(1 : ℚ), 2] = Variance.init.addRange [2, 1] ∧
    (Variance.init.addRange [(1 : ℚ), 2]).get_variance variance_type.Population =
      (Variance.init.addRange [2, 1]).get_variance variance_type.Population ∧
    StandardDeviation.init.addRange [(1 : ℚ), 2] = StandardDeviation.init.addRange [2, 1] ∧
    ((StandardDeviation.init.addRange [(1 : ℚ), 2]).get_variance
        variance_type.Population).1 =
      ((StandardDeviation.init.addRange [2, 1]).get_variance variance_type.Population).1 ∧
    ((StandardDeviation.init.addRange [(1 : ℚ), 2]).get_standard_deviation
        variance_type.Population).1 =
      ((StandardDeviation.init.addRange [2, 1]).get_standard_deviation
        variance_type.Population).1) :=
  ⟨List.Perm.swap 2 1 [],
   C8_order_invariance variance_type.Population [1, 2] [2, 1] (List.Perm.swap 2 1 [])⟩

/-- C9: when the input type is `float` or `double`, the trait specialization
stores the running `sum` and `sum_of_squares` in exactly that input type,
overriding any configured calculation type — in particular a `float` input
type with a requested `double` calculation type still accumulates in `float`
(so each accumulation step rounds to `float` precision); for all other input
types the configured calculation type is used. -/
theorem C9_float_double_storage (TCalc : CppType) (bits : ℕ) (signed : Bool) :
    variance_traits.storage .float TCalc = .float ∧
    variance_traits.storage .double TCalc = .double ∧
    standard_deviation_traits.storage .float TCalc = .float ∧
    standard_deviation_traits.storage .double TCalc = .double ∧
    variance_traits.storage .float .double = .float ∧
    standard_deviation_traits.storage .float .double = .float ∧
    variance_traits.storage (.integral bits signed) TCalc = TCalc ∧
    standard_deviation_traits.storage (.integral bits signed) TCalc = TCalc :=
  ⟨rfl, rfl, rfl, rfl, rfl, rfl, rfl, rfl⟩

/-! ### Evaluation of binary64 rounding at the values of the C8 trace -/

theorem roundNearestEven_down (s : ℚ) (k : ℤ) (h1 : (k : ℚ) ≤ s)
    (h2 : s - k < 1 / 2) : roundNearestEven s = k := by
  have hf : ⌊s⌋ = k := Int.floor_eq_iff.mpr ⟨h1, by linarith⟩
  simp only [roundNearestEven, hf]
  rw [if_pos h2]

theorem roundNearestEven_up (s : ℚ) (k : ℤ)
    (h2 : s < k) (h3 : 1 / 2 < s - ((k : ℚ) - 1)) : roundNearestEven s = k := by
  have hf : ⌊s⌋ = k - 1 := Int.floor_eq_iff.mpr ⟨by push_cast; linarith, by push_cast; linarith⟩
  simp only [roundNearestEven, hf]
  rw [if_neg (by push_cast; linarith), if_pos (by push_cast; linarith)]
  ring

theorem fl64_eq_of (q r : ℚ) (e m : ℤ) (hq : 0 < q)
    (h1 : (2 : ℚ) ^ e ≤ q) (h2 : q < (2 : ℚ) ^ (e + 1))
    (hm : roundNearestEven (q * 2 ^ ((52 : ℤ) - e)) = m)
    (hr : (m : ℚ) * 2 ^ (e - (52 : ℤ)) = r) :
    fl64 q = r := by
  have hb : 1 < 2 := one_lt_two
  have habs : |q| = q := abs_of_pos hq
  have hlog : Int.log 2 q = e := by
    have h3 : e ≤ Int.log 2 q := (Int.zpow_le_iff_le_log hb hq).mp (by exact_mod_cast h1)
    have h4 : Int.log 2 q < e + 1 := (Int.lt_zpow_iff_log_lt hb hq).mp (by exact_mod_cast h2)
    omega
  simp only [fl64, habs, hlog]
  rw [if_neg (ne_of_gt hq), if_neg (not_lt.mpr hq.le), hm, hr]

theorem fl64_zero : fl64 0 = 0 := by
  simp [fl64]

theorem fl64_p53 : fl64 (9007199254740992 : ℚ) = 9007199254740992 :=
  fl64_eq_of _ _ 53 4503599627370496 (by norm_num) (by norm_num) (by norm_num)
    (roundNearestEven_down _ _ (by norm_num) (by norm_num)) (by norm_num)

theorem fl64_p106 : fl64 (81129638414606681695789005144064 : ℚ) = 81129638414606681695789005144064 :=
  fl64_eq_of _ _ 106 4503599627370496 (by norm_num) (by norm_num) (by norm_num)
    (roundNearestEven_down _ _ (by norm_num) (by norm_num)) (by norm_num)

theorem fl64_q3_4 : fl64 ((3 : ℚ) / 4) = 3 / 4 :=
  fl64_eq_of _ _ (-1) 6755399441055744 (by norm_num) (by norm_num) (by norm_num)
    (roundNearestEven_down _ _ (by norm_num) (by norm_num)) (by norm_num)

theorem fl64_q9_16 : fl64 ((9 : ℚ) / 16) = 9 / 16 :=
  fl64_eq_of _ _ (-1) 5066549580791808 (by norm_num) (by norm_num) (by norm_num)
    (roundNearestEven_down _ _ (by norm_num) (by norm_num)) (by norm_num)

theorem fl64_q3_2 : fl64 ((3 : ℚ) / 2) = 3 / 2 :=
  fl64_eq_of _ _ 0 6755399441055744 (by norm_num) (by norm_num) (by norm_num)
    (roundNearestEven_down _ _ (by norm_num) (by norm_num)) (by norm_num)

theorem fl64_q9_8 : fl64 ((9 : ℚ) / 8) = 9 / 8 :=
  fl64_eq_of _ _ 0 5066549580791808 (by norm_num) (by norm_num) (by norm_num)
    (roundNearestEven_down _ _ (by norm_num) (by norm_num)) (by norm_num)

theorem fl64_four : fl64 (4 : ℚ) = 4 :=
  fl64_eq_of _ _ 2 4503599627370496 (by norm_num) (by norm_num) (by norm_num)
    (roundNearestEven_down _ _ (by norm_num) (by norm_num)) (by norm_num)

theorem fl64_sixteen : fl64 (16 : ℚ) = 16 :=
  fl64_eq_of _ _ 4 4503599627370496 (by norm_num) (by norm_num) (by norm_num)
    (roundNearestEven_down _ _ (by norm_num) (by norm_num)) (by norm_num)

theorem fl64_q1_16 : fl64 ((1 : ℚ) / 16) = 1 / 16 :=
  fl64_eq_of _ _ (-4) 4503599627370496 (by norm_num) (by norm_num) (by norm_num)
    (roundNearestEven_down _ _ (by norm_num) (by norm_num)) (by norm_num)

theorem fl64_p108 : fl64 (324518553658426726783156020576256 : ℚ) = 324518553658426726783156020576256 :=
  fl64_eq_of _ _ 108 4503599627370496 (by norm_num) (by norm_num) (by norm_num)
    (roundNearestEven_down _ _ (by norm_num) (by norm_num)) (by norm_num)

theorem fl64_3p106 : fl64 (243388915243820045087367015432192 : ℚ) = 243388915243820045087367015432192 :=
  fl64_eq_of _ _ 107 6755399441055744 (by norm_num) (by norm_num) (by norm_num)
    (roundNearestEven_down _ _ (by norm_num) (by norm_num)) (by norm_num)

theorem fl64_3p102 : fl64 (15211807202738752817960438464512 : ℚ) = 15211807202738752817960438464512 :=
  fl64_eq_of _ _ 103 6755399441055744 (by norm_num) (by norm_num) (by norm_num)
    (roundNearestEven_down _ _ (by norm_num) (by norm_num)) (by norm_num)

theorem fl64_3p106m55 : fl64 (243388915243820009058569996468224 : ℚ) = 243388915243820009058569996468224 :=
  fl64_eq_of _ _ 107 6755399441055743 (by norm_num) (by norm_num) (by norm_num)
    (roundNearestEven_down _ _ (by norm_num) (by norm_num)) (by norm_num)

theorem fl64_3p102m51 : fl64 (15211807202738750566160624779264 : ℚ) = 15211807202738750566160624779264 :=
  fl64_eq_of _ _ 103 6755399441055743 (by norm_num) (by norm_num) (by norm_num)
    (roundNearestEven_down _ _ (by norm_num) (by norm_num)) (by norm_num)

theorem fl64_i1 : fl64 ((36028797018963971 : ℚ) / 4) = 9007199254740992 :=
  fl64_eq_of _ _ 53 4503599627370496 (by norm_num) (by norm_num) (by norm_num)
    (roundNearestEven_down _ _ (by norm_num) (by norm_num)) (by norm_num)

theorem fl64_i2 : fl64 ((18014398509481987 : ℚ) / 2) = 9007199254740994 :=
  fl64_eq_of _ _ 53 4503599627370497 (by norm_num) (by norm_num) (by norm_num)
    (roundNearestEven_up _ _ (by norm_num) (by norm_num)) (by norm_num)

theorem fl64_i3 : fl64 ((1298074214633706907132624082305033 : ℚ) / 16) = 81129638414606681695789005144064 :=
  fl64_eq_of _ _ 106 4503599627370496 (by norm_num) (by norm_num) (by norm_num)
    (roundNearestEven_down _ _ (by norm_num) (by norm_num)) (by norm_num)

theorem fl64_i4 : fl64 ((649037107316853453566312041152521 : ℚ) / 8) = 81129638414606681695789005144064 :=
  fl64_eq_of _ _ 106 4503599627370496 (by norm_num) (by norm_num) (by norm_num)
    (roundNearestEven_down _ _ (by norm_num) (by norm_num)) (by norm_num)

theorem fl64_i5 : fl64 (81129638414606717724586024108036 : ℚ) = 81129638414606717724586024108032 :=
  fl64_eq_of _ _ 106 4503599627370498 (by norm_num) (by norm_num) (by norm_num)
    (roundNearestEven_down _ _ (by norm_num) (by norm_num)) (by norm_num)

/-- C8 counterexample: with `double` input and calculation types (the
`variance_traits<double, TCalc>` specialization), the per-step binary64
rounding of the running sum breaks permutation invariance.  Adding the values
`{2^53, 3/4, 3/4, 0}` as doubles in two different orders yields final sums
`2^53` versus `2^53 + 2` — `2^53 + 3/4` rounds down to `2^53`, while
`3/4 + 3/4 = 3/2` accumulated first makes `3/2 + 2^53` round up to
`2^53 + 2` — and hence different `get_variance()` results `3 * 2^102` versus
`3 * 2^102 - 2^51`. -/
theorem C8_counterexample :
    (([(9007199254740992 : ℚ), 3 / 4, 3 / 4, 0]).Perm
      [3 / 4, 3 / 4, 0, 9007199254740992]) ∧
    (VarianceD.init.addRange [(9007199254740992 : ℚ), 3 / 4, 3 / 4, 0]).sum ≠
      (VarianceD.init.addRange [3 / 4, 3 / 4, 0, 9007199254740992]).sum ∧
    ((VarianceD.init.addRange [(9007199254740992 : ℚ), 3 / 4, 3 / 4, 0]).get_variance
        variance_type.Population).1 ≠
      ((VarianceD.init.addRange [3 / 4, 3 / 4, 0, 9007199254740992]).get_variance
        variance_type.Population).1 := by
  have hA : VarianceD.init.addRange [(9007199254740992 : ℚ), 3 / 4, 3 / 4, 0] =
      { sum_of_squares := 81129638414606681695789005144064,
        sum := 9007199254740992, counter := 4,
        variance_value := .finite 0, recalculate := true } := by
    norm_num [VarianceD.addRange, VarianceD.add, VarianceD.init, VarianceD.clear,
      fl64_zero, fl64_p53, fl64_p106, fl64_q3_4, fl64_q9_16, fl64_i1, fl64_i3]
  have hB : VarianceD.init.addRange [(3 : ℚ) / 4, 3 / 4, 0, 9007199254740992] =
      { sum_of_squares := 81129638414606681695789005144064,
        sum := 9007199254740994, counter := 4,
        variance_value := .finite 0, recalculate := true } := by
    norm_num [VarianceD.addRange, VarianceD.add, VarianceD.init, VarianceD.clear,
      fl64_zero, fl64_p106, fl64_q3_4, fl64_q9_16, fl64_q3_2, fl64_q9_8,
      fl64_i2, fl64_i4]
  have hvA : ((VarianceD.init.addRange
        [(9007199254740992 : ℚ), 3 / 4, 3 / 4, 0]).get_variance
        variance_type.Population).1 =
      EDouble.finite 15211807202738752817960438464512 := by
    rw [hA]
    norm_num [VarianceD.get_variance, Variance.Adjustment, variance_type.Population,
      EDouble.mul, EDouble.sub, EDouble.div, EDouble.rnd,
      fl64_four, fl64_sixteen, fl64_q1_16, fl64_p106, fl64_p108, fl64_3p106, fl64_3p102]
  have hvB : ((VarianceD.init.addRange
        [(3 : ℚ) / 4, 3 / 4, 0, 9007199254740992]).get_variance
        variance_type.Population).1 =
      EDouble.finite 15211807202738750566160624779264 := by
    rw [hB]
    norm_num [VarianceD.get_variance, Variance.Adjustment, variance_type.Population,
      EDouble.mul, EDouble.sub, EDouble.div, EDouble.rnd,
      fl64_four, fl64_sixteen, fl64_q1_16, fl64_i5, fl64_p108, fl64_3p106m55,
      fl64_3p102m51]
  refine ⟨@List.perm_append_comm ℚ [(9007199254740992 : ℚ)] [3 / 4, 3 / 4, 0], ?_, ?_⟩
  · rw [hA, hB]
    norm_num
  · rw [hvA, hvB]
    simp only [ne_eq, EDouble.finite.injEq]
    norm_num

end Etl
